import Mathlib

/-!
casemd: the CSV preview script (`internal/interfaces/web/static/index.js`).

A shallow embedding of `parseCSV` and `renderTable`, and theorems about them.

A JavaScript string is modelled as the list of its UTF-16 code units (`Str`);
`parseCSV` only ever compares a code unit with `"`, `,`, CR and LF, and appends
code units to the field buffer, so the model follows the source one code unit
at a time.
-/

namespace CaseMd

/-- A JavaScript string: the sequence of its UTF-16 code units. -/
abbrev Str := List Nat

/-- The code units of a literal (exact for characters of the Basic Multilingual Plane). -/
def ofString (s : String) : Str := s.toList.map Char.toNat

/-- Code unit of the double quote character. -/
def QUOTE : Nat := 34
/-- Code unit of the comma. -/
def COMMA : Nat := 44
/-- Code unit of the carriage return. -/
def CR : Nat := 13
/-- Code unit of the line feed. -/
def LF : Nat := 10

/-! ## `parseCSV` -/

/-- The local variables of `parseCSV`: the loop counter `index`, the table `rows`,
the row buffer `current`, the field buffer `value` and the mode bit `inQuotes`. -/
structure Scan where
  index : Nat
  rows : List (List Str)
  current : List Str
  value : Str
  inQuotes : Bool
deriving DecidableEq

/-- The state at the start of `parseCSV`. -/
def Scan.init : Scan := ⟨0, [], [], [], false⟩

/-- One iteration of the `for` loop of `parseCSV`, for `char = text[index]`,
including the increment `index += 1` of the loop header.  The lookahead
`text[index + 1]` is `undefined` past the end, which is not `=== '"'`. -/
def loopBody (text : Str) (char : Nat) (s : Scan) : Scan :=
  if s.inQuotes then
    if char = QUOTE then
      if text[s.index + 1]? = some QUOTE then
        { s with value := s.value ++ [QUOTE], index := s.index + 1 + 1 }
      else
        { s with inQuotes := false, index := s.index + 1 }
    else
      { s with value := s.value ++ [char], index := s.index + 1 }
  else if char = QUOTE then
    { s with inQuotes := true, index := s.index + 1 }
  else if char = COMMA then
    { s with current := s.current ++ [s.value], value := [], index := s.index + 1 }
  else if char = CR then
    { s with index := s.index + 1 }
  else if char = LF then
    { s with rows := s.rows ++ [s.current ++ [s.value]], current := [], value := [],
             index := s.index + 1 }
  else
    { s with value := s.value ++ [char], index := s.index + 1 }

/-- The `for` loop of `parseCSV`: it runs while `index < text.length`.  The first
argument bounds the number of iterations; `text.length` of them always suffice
(`loop_index_ge`, `loop_eq_scanL`). -/
def loop (text : Str) : Nat → Scan → Scan
  | 0, s => s
  | fuel + 1, s =>
    match text[s.index]? with
    | none => s
    | some char => loop text fuel (loopBody text char s)

/-- The code after the loop: a pending field or row is closed and kept. -/
def finish (s : Scan) : List (List Str) :=
  if s.value ≠ [] ∨ s.current.length ≠ 0 then s.rows ++ [s.current ++ [s.value]] else s.rows

/-- The function `parseCSV(text)` of the source. -/
def parseCSV (text : Str) : List (List Str) :=
  finish (loop text text.length Scan.init)

/-- The state with the loop counter forgotten; the buffers are kept. -/
def Scan.noIndex (s : Scan) : Scan := { s with index := 0 }

/-- The same scan written by recursion on the text still to be read (the text
from `index` on), the lookahead being the head of the rest; the loop counter is
left alone.  It is `loop` in a form fit for induction (`loop_eq_scanL`). -/
def scanL : Str → Scan → Scan
  | [], s => s
  | c :: rest, s =>
    if s.inQuotes then
      if c = QUOTE then
        match rest with
        | [] => { s with inQuotes := false }
        | d :: rest' =>
          if d = QUOTE then
            scanL rest' { s with value := s.value ++ [QUOTE] }
          else
            scanL (d :: rest') { s with inQuotes := false }
      else
        scanL rest { s with value := s.value ++ [c] }
    else if c = QUOTE then
      scanL rest { s with inQuotes := true }
    else if c = COMMA then
      scanL rest { s with current := s.current ++ [s.value], value := [] }
    else if c = CR then
      scanL rest s
    else if c = LF then
      scanL rest { s with rows := s.rows ++ [s.current ++ [s.value]], current := [], value := [] }
    else
      scanL rest { s with value := s.value ++ [c] }
termination_by text => text.length

/-! ## Vocabulary of the statements about `parseCSV` -/

/-- The quoted-field encoding: every quote character of the field is doubled. -/
def doubleQuotes (f : Str) : Str :=
  f.flatMap (fun c => if c = QUOTE then [QUOTE, QUOTE] else [c])

/-- A plain field: no quote, comma, carriage return or line feed. -/
def isPlain (a : Str) : Bool :=
  a.all (fun c => c != QUOTE && c != COMMA && c != CR && c != LF)

/-- The lines of a text: the pieces between line feeds. -/
def lines (text : Str) : List Str := text.splitOn LF

/-- The text after the last line feed (the whole text if it has none). -/
def lastLine (text : Str) : Str := (lines text).getLastD []

/-- A carriage return occurs only immediately before a line feed. -/
def crOnlyBeforeLF : Str → Bool
  | [] => true
  | c :: rest => (c != CR || rest.head? == some LF) && crOnlyBeforeLF rest

/-- A text with every carriage return removed. -/
def removeCR (text : Str) : Str := text.filter (fun c => c != CR)

/-- The fields of an unquoted line: carriage returns dropped, split at the commas. -/
def lineFields (line : Str) : List Str := (removeCR line).splitOn COMMA

/-- The table of an unquoted text with its pending last row kept: one row per line. -/
def lineTable (text : Str) : List (List Str) := (lines text).map lineFields

/-- The table held by a scan state if the pending row were closed now. -/
def pack (s : Scan) : List (List Str) := s.rows ++ [s.current ++ [s.value]]

/-- A table continued from the buffers `current` and `value`: they are put in
front of its first row and first field. -/
def merge (current : List Str) (value : Str) (t : List (List Str)) : List (List Str) :=
  t.modifyHead (fun r => current ++ r.modifyHead (fun f => value ++ f))

/-! ## `renderTable` -/

/-- The two kinds of table cell that `renderTable` creates. -/
inductive Tag where
  | th
  | td
deriving DecidableEq

/-- A cell element: its tag, its `className` and its `textContent`. -/
structure Cell where
  tag : Tag
  className : Str
  textContent : Str
deriving DecidableEq

/-- A `tr` element: the list of its cells. -/
abbrev Tr := List Cell

/-- A table section (`thead` or `tbody`): the list of its rows. -/
abbrev Section := List Tr

/-- The two sections that `renderTable` writes. -/
structure Rendered where
  head : Section
  body : Section
deriving DecidableEq

/-- Whether a code unit is stripped by `String.prototype.trim` (ECMAScript
WhiteSpace and LineTerminator): TAB, LF, VT, FF, CR, SP, NBSP, U+1680,
U+2000 to U+200A, LS, PS, U+202F, U+205F, U+3000 and U+FEFF. -/
def isWhiteSpace (c : Nat) : Bool :=
  c == 9 || c == 10 || c == 11 || c == 12 || c == 13 || c == 32 || c == 160 || c == 5760 ||
  (8192 ≤ c && c ≤ 8202) || c == 8232 || c == 8233 || c == 8239 || c == 8287 ||
  c == 12288 || c == 65279

/-- The built-in `String.prototype.trim`: leading and trailing white space removed. -/
def trim (s : Str) : Str :=
  ((s.dropWhile isWhiteSpace).reverse.dropWhile isWhiteSpace).reverse

/-- `Array.prototype.forEach` with a callback `(element, index)`, started at index `i`;
the effect of the callback is a function on the state `σ`. -/
def forEachFrom {α σ : Type} (f : σ → α → Nat → σ) : Nat → List α → σ → σ
  | _, [], acc => acc
  | i, x :: xs, acc => forEachFrom f (i + 1) xs (f acc x i)

/-- `xs.forEach((element, index) => ...)`. -/
def forEach {α σ : Type} (xs : List α) (f : σ → α → Nat → σ) (acc : σ) : σ :=
  forEachFrom f 0 xs acc

/-- The content of a section after `innerHTML = ""`. -/
def clearSection (_e : Section) : Section := []

/-- The content of `bodyElement` after
`innerHTML = '<tr><td class="placeholder">No data available.</td></tr>'`. -/
def noDataAvailable : Section :=
  [[⟨Tag.td, ofString "placeholder", ofString "No data available."⟩]]

/-- The row built when there is a header and no data row. -/
def noRowsParsed : Tr :=
  [⟨Tag.td, ofString "placeholder", ofString "No rows parsed."⟩]

/-- The function `renderTable(csvText, headElement, bodyElement)` of the source: the
content of the two sections when it returns. -/
def renderTable (csvText : Str) (headElement bodyElement : Section) : Rendered :=
  let headElement := clearSection headElement
  let bodyElement := clearSection bodyElement
  if trim csvText = [] then
    ⟨headElement, noDataAvailable⟩
  else
    let rows := parseCSV csvText
    -- `!rows.length` is the case `[]`; otherwise `[header, ...dataRows] = rows`
    match rows with
    | [] => ⟨headElement, noDataAvailable⟩
    | header :: dataRows =>
      let headerRow : Tr := forEach header (fun tr cell _ => tr ++ [⟨Tag.th, [], cell⟩]) []
      let headElement := headElement ++ [headerRow]
      if dataRows.length = 0 then
        ⟨headElement, bodyElement ++ [noRowsParsed]⟩
      else
        ⟨headElement,
          forEach dataRows
            (fun body values _ =>
              body ++ [forEach header
                (fun tr _ index => tr ++ [⟨Tag.td, [], (values[index]?).getD []⟩]) []])
            bodyElement⟩

/-! ## Vocabulary of the later statements about `parseCSV` -/

/-- A scan state with the rows `r` put in front of its table. -/
def Scan.addRows (r : List (List Str)) (s : Scan) : Scan := { s with rows := r ++ s.rows }

/-- A table written back as text: the fields of a row joined with commas, the
rows joined with line feeds. -/
def joinRows (rows : List (List Str)) : Str :=
  List.intercalate [LF] (rows.map (List.intercalate [COMMA]))

/-! ## JSON values and `loadDefaultState` -/

/-- A value as `JSON.parse` returns it (a number is kept as an integer; which
number it is plays no part). -/
inductive Json where
  | null
  | bool (b : Bool)
  | num (n : Int)
  | str (s : Str)
  | arr (items : List Json)
  | obj (fields : List (Str × Json))

/-- What `loadDefaultState` finds: no element with id `default-state`, a text on
which `JSON.parse` throws, or the value that `JSON.parse` returns (for a
`textContent` of `null` this is the value of `"{}"`, an object without fields). -/
inductive Payload where
  | noElement
  | notJson
  | json (defaults : Json)

/-- The property read `v.key` for one of the keys `name`, `markdown`, `csv`, which
no prototype defines: `none` is `undefined`.  It is not used on `null`, where the
read throws. -/
def Json.prop (v : Json) (key : Str) : Option Json :=
  match v with
  | Json.obj fields => (fields.find? (fun kv => kv.1 = key)).map (fun kv => kv.2)
  | _ => none

/-- The expression `x ?? ""`: the empty string for `undefined` and `null`, else `x`. -/
def orEmpty (x : Option Json) : Json :=
  match x with
  | none => Json.str []
  | some Json.null => Json.str []
  | some v => v

/-- The record returned by `loadDefaultState`; its fields are whatever values the
code puts there. -/
structure DefaultState where
  name : Json
  markdown : Json
  csv : Json

/-- The function `loadDefaultState()` of the source.  On `null` the first property
read throws a `TypeError` inside the `try`, and the `catch` returns the defaults. -/
def loadDefaultState (payload : Payload) : DefaultState :=
  match payload with
  | Payload.noElement => ⟨Json.str [], Json.str [], Json.str []⟩
  | Payload.notJson => ⟨Json.str [], Json.str [], Json.str []⟩
  | Payload.json Json.null => ⟨Json.str [], Json.str [], Json.str []⟩
  | Payload.json defaults =>
    ⟨orEmpty (defaults.prop (ofString "name")), orEmpty (defaults.prop (ofString "markdown")),
     orEmpty (defaults.prop (ofString "csv"))⟩

/-- The call `renderTable(csvText, headElement, bodyElement)` on any value:
`csvText.trim()` throws a `TypeError` (`none`) unless `csvText` is a string; the
two sections have been cleared by then. -/
def renderTableValue (csvText : Json) (headElement bodyElement : Section) : Option Rendered :=
  match csvText with
  | Json.str s => some (renderTable s headElement bodyElement)
  | _ => none

/-- The first statement of `initializePreview`, on the defaults of a payload. -/
def initialRender (payload : Payload) (headElement bodyElement : Section) : Option Rendered :=
  renderTableValue (loadDefaultState payload).csv headElement bodyElement

/-- Whether a value is a string. -/
def Json.isStr : Json → Bool
  | Json.str _ => true
  | _ => false

/-! ## The submit handler of `initializePreview` -/

/-- What the handler reads and writes of the page: `submitButton.disabled`, the
`textContent` of the status and error elements, and the two table sections. -/
structure UI where
  submitDisabled : Bool
  statusText : Str
  errorText : Str
  head : Section
  body : Section
deriving DecidableEq

/-- A value caught by `catch (error)`: an `Error` with its `message`, or any other
value with the string that `String(error)` gives. -/
inductive Thrown where
  | error (message : Str)
  | value (asString : Str)
deriving DecidableEq

/-- The text shown for a caught value:
`error instanceof Error ? error.message : String(error)`. -/
def Thrown.text : Thrown → Str
  | Thrown.error message => message
  | Thrown.value asString => asString

/-- What the request of the `try` block does, which the handler does not decide:
`fetch` rejects; the response is not `ok` and `response.text()` resolves to a body
or rejects; the response is `ok` and `response.json()` rejects, or resolves to a
value `result`.  The typedef `PreviewResponse` expects an object with an optional
string `csv`, and nothing checks it, so `result` is any JSON value;
`typeErrorMessage` is the message that the engine gives to the `TypeError` thrown
on a `result` of another shape. -/
inductive Outcome where
  | fetchThrows (e : Thrown)
  | notOk (body : Except Thrown Str)
  | jsonThrows (e : Thrown)
  | ok (result : Json) (typeErrorMessage : Str)

/-- The statements of the handler before the `try`: the button is disabled, the
status says "Converting...", the error text is cleared. -/
def beforeRequest (ui : UI) : UI :=
  { ui with submitDisabled := true, statusText := ofString "Converting...", errorText := [] }

/-- The `try` block: the state of the page where it ends, and the value thrown if
it ends by a throw.  An empty body of a response that is not `ok` is falsy, so
the message is then "conversion failed".  On an `ok` response, `result.csv`
throws when `result` is `null`; `renderTable(result.csv ?? "", ...)` throws at
`csvText.trim()`, after clearing both sections, when the value is not a string;
otherwise the table is rendered and the status is "Done". -/
def tryBlock (outcome : Outcome) (ui : UI) : UI × Option Thrown :=
  match outcome with
  | Outcome.fetchThrows e => (ui, some e)
  | Outcome.notOk (Except.error e) => (ui, some e)
  | Outcome.notOk (Except.ok body) =>
    (ui, some (Thrown.error (if body = [] then ofString "conversion failed" else body)))
  | Outcome.jsonThrows e => (ui, some e)
  | Outcome.ok Json.null typeErrorMessage => (ui, some (Thrown.error typeErrorMessage))
  | Outcome.ok result typeErrorMessage =>
    match renderTableValue (orEmpty (result.prop (ofString "csv"))) ui.head ui.body with
    | some r =>
      ({ ui with head := r.head, body := r.body, statusText := ofString "Done" }, none)
    | none =>
      ({ ui with head := clearSection ui.head, body := clearSection ui.body },
        some (Thrown.error typeErrorMessage))

/-- The `catch` block: the error text is set, the status cleared and the table
rendered from the empty string. -/
def catchBlock (error : Thrown) (ui : UI) : UI :=
  let r := renderTable [] ui.head ui.body
  { ui with errorText := error.text, statusText := [], head := r.head, body := r.body }

/-- The `finally` block. -/
def finallyBlock (ui : UI) : UI := { ui with submitDisabled := false }

/-- The submit handler registered by `initializePreview`, from the state of the
page when the event arrives to its state when the handler completes. -/
def submitHandler (outcome : Outcome) (ui : UI) : UI :=
  let ui1 := beforeRequest ui
  finallyBlock
    (match tryBlock outcome ui1 with
     | (ui2, none) => ui2
     | (ui2, some e) => catchBlock e ui2)

/-! ## Scan lemmas -/

theorem scanL_nil (s : Scan) : scanL [] s = s := by
  rw [scanL.eq_def]

theorem scanL_cons (c : Nat) (rest : Str) (s : Scan) :
    scanL (c :: rest) s =
      if s.inQuotes then
        if c = QUOTE then
          match rest with
          | [] => { s with inQuotes := false }
          | d :: rest' =>
            if d = QUOTE then
              scanL rest' { s with value := s.value ++ [QUOTE] }
            else
              scanL (d :: rest') { s with inQuotes := false }
        else
          scanL rest { s with value := s.value ++ [c] }
      else if c = QUOTE then
        scanL rest { s with inQuotes := true }
      else if c = COMMA then
        scanL rest { s with current := s.current ++ [s.value], value := [] }
      else if c = CR then
        scanL rest s
      else if c = LF then
        scanL rest { s with rows := s.rows ++ [s.current ++ [s.value]], current := [], value := [] }
      else
        scanL rest { s with value := s.value ++ [c] } := by
  rw [scanL.eq_def]
  rfl

/-- The loop of the source and the recursion on the rest of the text compute the
same buffers, as soon as the fuel covers the text still to be read. -/
theorem loop_eq_scanL (text : Str) (fuel : Nat) (s : Scan)
    (h : text.length - s.index ≤ fuel) :
    (loop text fuel s).noIndex = scanL (text.drop s.index) s.noIndex := by
  induction fuel generalizing s with
  | zero =>
    have : text.drop s.index = [] := List.drop_eq_nil_of_le (by omega)
    rw [this]; simp [loop, scanL_nil]
  | succ n ih =>
    rcases hget : text[s.index]? with _ | char
    · have hlen : text.length ≤ s.index := by simpa using hget
      rw [List.drop_eq_nil_of_le hlen]
      simp [loop, scanL_nil, hget]
    · have hlt : s.index < text.length := by
        rcases Nat.lt_or_ge s.index text.length with h1 | h1
        · exact h1
        · rw [List.getElem?_eq_none h1] at hget; cases hget
      have hchar : text[s.index] = char := by
        rw [List.getElem?_eq_getElem hlt] at hget; exact Option.some.inj hget
      have hdrop : text.drop s.index = char :: text.drop (s.index + 1) := by
        rw [← hchar]; exact List.drop_eq_getElem_cons hlt
      simp only [loop, hget]
      rw [hdrop, scanL_cons]
      have ih1 : ∀ s1 : Scan, s1.index = s.index + 1 →
          (loop text n s1).noIndex = scanL (text.drop (s.index + 1)) s1.noIndex := by
        intro s1 h1
        rw [← h1]; exact ih s1 (by omega)
      unfold loopBody
      by_cases hq : s.inQuotes = true
      · have hq2 : s.noIndex.inQuotes = true := hq
        simp only [if_pos hq, if_pos hq2]
        by_cases hc : char = QUOTE
        · simp only [if_pos hc]
          rcases hnext : text[s.index + 1]? with _ | d
          · have hlen : text.length ≤ s.index + 1 := by simpa using hnext
            have hnil : text.drop (s.index + 1) = [] := List.drop_eq_nil_of_le hlen
            have hne : ¬ ((none : Option Nat) = some QUOTE) := by simp
            rw [if_neg hne, ih1 _ rfl, hnil]
            simp [scanL_nil, Scan.noIndex]
          · have hlt2 : s.index + 1 < text.length := by
              rcases Nat.lt_or_ge (s.index + 1) text.length with h1 | h1
              · exact h1
              · rw [List.getElem?_eq_none h1] at hnext; cases hnext
            have hd : text[s.index + 1] = d := by
              rw [List.getElem?_eq_getElem hlt2] at hnext; exact Option.some.inj hnext
            have hdrop2 : text.drop (s.index + 1) = d :: text.drop (s.index + 1 + 1) := by
              rw [← hd]; exact List.drop_eq_getElem_cons hlt2
            rw [hdrop2]
            by_cases hdq : d = QUOTE
            · have he : some d = some QUOTE := by rw [hdq]
              simp only [if_pos he, if_pos hdq]
              exact ih _ (by simp only; omega)
            · have hne : ¬ (some d = some QUOTE) := fun h => hdq (Option.some.inj h)
              simp only [if_neg hne, if_neg hdq]
              rw [← hdrop2]
              exact ih1 _ rfl
        · simp only [if_neg hc]
          exact ih1 _ rfl
      · have hq2 : ¬ s.noIndex.inQuotes = true := hq
        simp only [if_neg hq, if_neg hq2]
        by_cases h1 : char = QUOTE
        · simp only [if_pos h1]; exact ih1 _ rfl
        · simp only [if_neg h1]
          by_cases h2 : char = COMMA
          · simp only [if_pos h2]; exact ih1 _ rfl
          · simp only [if_neg h2]
            by_cases h3 : char = CR
            · simp only [if_pos h3]
              exact ih1 { s with index := s.index + 1 } rfl
            · simp only [if_neg h3]
              by_cases h4 : char = LF
              · simp only [if_pos h4]; exact ih1 _ rfl
              · simp only [if_neg h4]; exact ih1 _ rfl

theorem loopBody_index (text : Str) (char : Nat) (s : Scan) :
    (loopBody text char s).index = s.index + 1 ∨ (loopBody text char s).index = s.index + 2 := by
  unfold loopBody
  split_ifs <;> simp

/-- With `text.length` iterations allowed the loop runs to its end: it stops at
`index ≥ text.length`, as the `for` loop of the source does. -/
theorem loop_index_ge (text : Str) (fuel : Nat) (s : Scan)
    (h : text.length - s.index ≤ fuel) :
    text.length ≤ (loop text fuel s).index := by
  induction fuel generalizing s with
  | zero => simp only [loop]; omega
  | succ n ih =>
    rcases hget : text[s.index]? with _ | char
    · have hlen : text.length ≤ s.index := by simpa using hget
      simpa [loop, hget] using hlen
    · simp only [loop, hget]
      apply ih
      rcases loopBody_index text char s with h1 | h1 <;> omega

theorem finish_noIndex (s : Scan) : finish s.noIndex = finish s := rfl

theorem parseCSV_eq_scanL (text : Str) : parseCSV text = finish (scanL text Scan.init) := by
  unfold parseCSV
  rw [← finish_noIndex, loop_eq_scanL text text.length Scan.init (by simp [Scan.init])]
  simp [Scan.init, Scan.noIndex]

theorem scanL_quoted_run (t u : Str) (s : Scan) (ht : QUOTE ∉ t) (hs : s.inQuotes = true) :
    scanL (t ++ u) s = scanL u { s with value := s.value ++ t } := by
  induction t generalizing s with
  | nil => simp
  | cons c t ih =>
    have hc : c ≠ QUOTE := fun h => ht (by simp [h])
    have ht2 : QUOTE ∉ t := fun h => ht (List.mem_cons_of_mem _ h)
    rw [List.cons_append, scanL_cons, if_pos hs, if_neg hc, ih _ ht2 (by exact hs)]
    simp

theorem scanL_doubleQuotes (f u : Str) (s : Scan) (hu : u.head? ≠ some QUOTE)
    (hs : s.inQuotes = true) :
    scanL (doubleQuotes f ++ QUOTE :: u) s =
      scanL u { s with value := s.value ++ f, inQuotes := false } := by
  induction f generalizing s with
  | nil =>
    simp only [doubleQuotes, List.flatMap_nil, List.nil_append, List.append_nil]
    rw [scanL_cons, if_pos hs, if_pos rfl]
    cases u with
    | nil => simp [scanL_nil]
    | cons d rest =>
      have hd : d ≠ QUOTE := fun h => hu (by simp [h])
      simp only [if_neg hd]
  | cons c f ih =>
    by_cases hc : c = QUOTE
    · have e : doubleQuotes (c :: f) = QUOTE :: QUOTE :: doubleQuotes f := by
        simp [doubleQuotes, List.flatMap_cons, hc]
      rw [e, List.cons_append, List.cons_append, scanL_cons, if_pos hs, if_pos rfl]
      simp only [if_pos]
      rw [ih _ (by exact hs)]
      simp [hc]
    · have e : doubleQuotes (c :: f) = c :: doubleQuotes f := by
        simp [doubleQuotes, List.flatMap_cons, hc]
      rw [e, List.cons_append, scanL_cons, if_pos hs, if_neg hc, ih _ (by exact hs)]
      simp

theorem isPlain_cons (c : Nat) (a : Str) :
    isPlain (c :: a) = true ↔
      (c ≠ QUOTE ∧ c ≠ COMMA ∧ c ≠ CR ∧ c ≠ LF) ∧ isPlain a = true := by
  simp [isPlain, and_assoc]

theorem scanL_plain_run (a u : Str) (s : Scan) (ha : isPlain a = true)
    (hs : s.inQuotes = false) :
    scanL (a ++ u) s = scanL u { s with value := s.value ++ a } := by
  induction a generalizing s with
  | nil => simp
  | cons c a ih =>
    obtain ⟨⟨h1, h2, h3, h4⟩, ha2⟩ := (isPlain_cons c a).mp ha
    have hq : ¬ s.inQuotes = true := by simp [hs]
    rw [List.cons_append, scanL_cons, if_neg hq, if_neg h1, if_neg h2, if_neg h3, if_neg h4,
      ih _ ha2 (by exact hs)]
    simp


theorem scanL_open_quote (rest : Str) (s : Scan) (hs : s.inQuotes = false) :
    scanL (QUOTE :: rest) s = scanL rest { s with inQuotes := true } := by
  rw [scanL_cons]; simp [hs]

theorem scanL_comma (rest : Str) (s : Scan) (hs : s.inQuotes = false) :
    scanL (COMMA :: rest) s =
      scanL rest { s with current := s.current ++ [s.value], value := [] } := by
  rw [scanL_cons]; simp [hs, COMMA, QUOTE]

theorem scanL_CR (rest : Str) (s : Scan) (hs : s.inQuotes = false) :
    scanL (CR :: rest) s = scanL rest s := by
  rw [scanL_cons]; simp [hs, COMMA, QUOTE, CR]

theorem scanL_LF (rest : Str) (s : Scan) (hs : s.inQuotes = false) :
    scanL (LF :: rest) s =
      scanL rest { s with rows := s.rows ++ [s.current ++ [s.value]], current := [],
                          value := [] } := by
  rw [scanL_cons]; simp [hs, COMMA, QUOTE, CR, LF]

theorem scanL_other (c : Nat) (rest : Str) (s : Scan) (hs : s.inQuotes = false)
    (h1 : c ≠ QUOTE) (h2 : c ≠ COMMA) (h3 : c ≠ CR) (h4 : c ≠ LF) :
    scanL (c :: rest) s = scanL rest { s with value := s.value ++ [c] } := by
  have hq : ¬ s.inQuotes = true := by simp [hs]
  rw [scanL_cons, if_neg hq, if_neg h1, if_neg h2, if_neg h3, if_neg h4]


/-! ## Quoted fields -/

/-- C1: a quoted field with every internal quote doubled, placed between two
plain fields `a` and `b`, parses back to exactly the one row `[a, f, b]`, whatever
characters the field `f` holds. -/
theorem parseCSV_quoted_field_roundtrip (a f b : Str)
    (ha : isPlain a = true) (hb : isPlain b = true) :
    parseCSV (a ++ [COMMA] ++ [QUOTE] ++ doubleQuotes f ++ [QUOTE] ++ [COMMA] ++ b)
      = [[a, f, b]] := by
  have e : a ++ [COMMA] ++ [QUOTE] ++ doubleQuotes f ++ [QUOTE] ++ [COMMA] ++ b
      = a ++ (COMMA :: QUOTE :: (doubleQuotes f ++ QUOTE :: (COMMA :: (b ++ [])))) := by
    simp
  rw [e, parseCSV_eq_scanL, scanL_plain_run a _ _ ha rfl, scanL_comma _ _ rfl,
    scanL_open_quote _ _ rfl, scanL_doubleQuotes f _ _ (by simp [COMMA, QUOTE]) rfl,
    scanL_comma _ _ rfl, scanL_plain_run b _ _ hb rfl, scanL_nil]
  simp [finish, Scan.init]

theorem parseCSV_quoted_field_roundtrip_witness :
    isPlain (ofString "x") = true ∧ isPlain (ofString "y") = true ∧
    parseCSV (ofString "x" ++ [COMMA] ++ [QUOTE] ++ doubleQuotes (ofString "q\"r,\r\n")
        ++ [QUOTE] ++ [COMMA] ++ ofString "y")
      = [[ofString "x", ofString "q\"r,\r\n", ofString "y"]] :=
  ⟨by decide, by decide,
    parseCSV_quoted_field_roundtrip (ofString "x") (ofString "q\"r,\r\n") (ofString "y")
      (by decide) (by decide)⟩

/-- C3: the scenario text `name,age`, `"Smith, A.",30`, `"Quo""te",40` (three lines,
the last one unterminated) parses to the three rows `name|age`, `Smith, A.|30`
and `Quo"te|40`. -/
theorem parseCSV_scenario :
    parseCSV (ofString "name,age\n\"Smith, A.\",30\n\"Quo\"\"te\",40") =
      [[ofString "name", ofString "age"], [ofString "Smith, A.", ofString "30"],
       [ofString "Quo\"te", ofString "40"]] := by
  decide

/-- C6: the empty text parses to the empty table, and the text made of one line
feed parses to one row holding one empty field. -/
theorem parseCSV_empty_and_single_LF :
    parseCSV (ofString "") = [] ∧ parseCSV (ofString "\n") = [[[]]] := by
  decide

/-- C7: after an unterminated opening quote, a non-empty rest without quote
characters is kept literally, commas and line ends included, as the single
field of a single row. -/
theorem parseCSV_unterminated_quote (s : Str) (hne : s ≠ []) (hq : QUOTE ∉ s) :
    parseCSV (QUOTE :: s) = [[s]] := by
  have e : s = s ++ [] := by simp
  rw [parseCSV_eq_scanL, scanL_open_quote _ _ rfl, e, scanL_quoted_run s [] _ hq rfl, scanL_nil]
  simpa [finish, Scan.init] using hne

theorem parseCSV_unterminated_quote_witness :
    ofString "a,b\r\nc" ≠ [] ∧ QUOTE ∉ ofString "a,b\r\nc" ∧
    parseCSV (QUOTE :: ofString "a,b\r\nc") = [[ofString "a,b\r\nc"]] :=
  ⟨by decide, by decide,
    parseCSV_unterminated_quote (ofString "a,b\r\nc") (by decide) (by decide)⟩

/-! ## Unquoted text: the parse is the line table -/

theorem lines_ne_nil (text : Str) : lines text ≠ [] :=
  List.splitOnP_ne_nil _ _

theorem lineFields_ne_nil (line : Str) : lineFields line ≠ [] :=
  List.splitOnP_ne_nil _ _

theorem lines_nil : lines [] = [[]] := rfl

theorem lines_cons_LF (cs : Str) : lines (LF :: cs) = [] :: lines cs := by
  simp [lines, List.splitOn, List.splitOnP_cons]

theorem lines_cons_ne (c : Nat) (cs : Str) (h : c ≠ LF) :
    lines (c :: cs) = (lines cs).modifyHead (List.cons c) := by
  simp [lines, List.splitOn, List.splitOnP_cons, h]

theorem lineFields_nil : lineFields [] = [[]] := rfl

theorem lineFields_cons_CR (l : Str) : lineFields (CR :: l) = lineFields l := by
  simp [lineFields, removeCR]

theorem lineFields_cons_COMMA (l : Str) : lineFields (COMMA :: l) = [] :: lineFields l := by
  simp [lineFields, removeCR, COMMA, CR, List.splitOn, List.splitOnP_cons]

theorem lineFields_cons_ne (c : Nat) (l : Str) (h2 : c ≠ COMMA) (h3 : c ≠ CR) :
    lineFields (c :: l) = (lineFields l).modifyHead (List.cons c) := by
  simp [lineFields, removeCR, h2, h3, List.splitOn, List.splitOnP_cons]

theorem lineTable_nil : lineTable [] = [[[]]] := rfl

theorem lineTable_cons_LF (cs : Str) : lineTable (LF :: cs) = [[]] :: lineTable cs := by
  simp [lineTable, lines_cons_LF, lineFields_nil]

theorem lineTable_cons_CR (cs : Str) : lineTable (CR :: cs) = lineTable cs := by
  have h : CR ≠ LF := by decide
  unfold lineTable
  rw [lines_cons_ne CR cs h]
  rcases hl : lines cs with _ | ⟨l, t⟩
  · exact absurd hl (lines_ne_nil cs)
  · simp [lineFields_cons_CR]

theorem lineTable_cons_COMMA (cs : Str) :
    lineTable (COMMA :: cs) = (lineTable cs).modifyHead (List.cons []) := by
  have h : COMMA ≠ LF := by decide
  unfold lineTable
  rw [lines_cons_ne COMMA cs h]
  rcases hl : lines cs with _ | ⟨l, t⟩
  · exact absurd hl (lines_ne_nil cs)
  · simp [lineFields_cons_COMMA]

theorem lineTable_cons_ne (c : Nat) (cs : Str) (h2 : c ≠ COMMA) (h3 : c ≠ CR) (h4 : c ≠ LF) :
    lineTable (c :: cs) = (lineTable cs).modifyHead (fun r => r.modifyHead (List.cons c)) := by
  unfold lineTable
  rw [lines_cons_ne c cs h4]
  rcases hl : lines cs with _ | ⟨l, t⟩
  · exact absurd hl (lines_ne_nil cs)
  · simp [lineFields_cons_ne c l h2 h3]

theorem lineTable_shape (text : Str) :
    ∃ f fs t, lineTable text = (f :: fs) :: t := by
  unfold lineTable
  rcases hl : lines text with _ | ⟨l, t⟩
  · exact absurd hl (lines_ne_nil text)
  · rcases hf : lineFields l with _ | ⟨f, fs⟩
    · exact absurd hf (lineFields_ne_nil l)
    · exact ⟨f, fs, t.map lineFields, by simp [hf]⟩

/-- On a text without quotes, started outside quotes, the scan leaves exactly the
line table of the text, continued from the buffers it started with. -/
theorem pack_scanL (text : Str) (s : Scan) (hq : QUOTE ∉ text) (hs : s.inQuotes = false) :
    pack (scanL text s) = s.rows ++ merge s.current s.value (lineTable text) ∧
      (scanL text s).inQuotes = false := by
  induction text generalizing s with
  | nil => simp [scanL_nil, lineTable_nil, merge, pack, hs]
  | cons c cs ih =>
    have h1 : c ≠ QUOTE := fun h => hq (by simp [h])
    have hq2 : QUOTE ∉ cs := fun h => hq (List.mem_cons_of_mem _ h)
    obtain ⟨f, fs, t, hsh⟩ := lineTable_shape cs
    by_cases h4 : c = LF
    · subst h4
      rw [scanL_LF _ _ hs, lineTable_cons_LF]
      obtain ⟨ih1, ih2⟩ :=
        ih { s with rows := s.rows ++ [s.current ++ [s.value]], current := [], value := [] }
          hq2 hs
      refine ⟨?_, ih2⟩
      rw [ih1, hsh]
      simp [merge]
    · by_cases h2 : c = COMMA
      · subst h2
        rw [scanL_comma _ _ hs, lineTable_cons_COMMA]
        obtain ⟨ih1, ih2⟩ := ih { s with current := s.current ++ [s.value], value := [] } hq2 hs
        refine ⟨?_, ih2⟩
        rw [ih1, hsh]
        simp [merge]
      · by_cases h3 : c = CR
        · subst h3
          rw [scanL_CR _ _ hs, lineTable_cons_CR]
          exact ih _ hq2 hs
        · rw [scanL_other c _ _ hs h1 h2 h3 h4, lineTable_cons_ne c cs h2 h3 h4]
          obtain ⟨ih1, ih2⟩ := ih { s with value := s.value ++ [c] } hq2 hs
          refine ⟨?_, ih2⟩
          rw [ih1, hsh]
          simp [merge]

theorem merge_nil_nil (t : List (List Str)) : merge [] [] t = t := by
  rcases t with _ | ⟨r, t⟩
  · rfl
  · rcases r with _ | ⟨f, fs⟩ <;> simp [merge]

theorem splitOn_eq_singleton_nil (a : Nat) (l : Str) : l.splitOn a = [[]] ↔ l = [] := by
  constructor
  · intro h
    rcases l with _ | ⟨c, cs⟩
    · rfl
    · exfalso
      have hne : cs.splitOn a ≠ [] := List.splitOnP_ne_nil _ _
      rcases hcs : cs.splitOn a with _ | ⟨x, xs⟩
      · exact hne hcs
      · simp only [List.splitOn] at h hcs
        rw [List.splitOnP_cons, hcs] at h
        by_cases hca : (c == a) = true
        · simp [hca] at h
        · simp [hca] at h
  · intro h; subst h; rfl

theorem lastLine_mem (text : Str) : (lines text).getLast? = some (lastLine text) := by
  unfold lastLine
  rcases hl : (lines text).getLast? with _ | x
  · exact absurd (List.getLast?_eq_none_iff.mp hl) (lines_ne_nil text)
  · simp [List.getLastD_eq_getLast?, hl]

/-- The buffers left by the scan of an unquoted text: the rows are the line table
without its last row, and the pending row is the fields of the last line. -/
theorem scanL_unquoted (text : Str) (hq : QUOTE ∉ text) :
    (scanL text Scan.init).rows = (lineTable text).dropLast ∧
    (scanL text Scan.init).current ++ [(scanL text Scan.init).value]
      = lineFields (lastLine text) := by
  obtain ⟨hp, _⟩ := pack_scanL text Scan.init hq rfl
  simp only [Scan.init, List.nil_append, merge_nil_nil] at hp
  constructor
  · rw [← hp]; simp [pack, Scan.init]
  · have h1 : (pack (scanL text Scan.init)).getLast? =
        some ((scanL text Scan.init).current ++ [(scanL text Scan.init).value]) := by
      simp [pack]
    have h2 : (lineTable text).getLast? = some (lineFields (lastLine text)) := by
      simp [lineTable, List.getLast?_map, lastLine_mem]
    simp only [Scan.init] at h1
    rw [hp, h2] at h1
    exact (Option.some.inj h1).symm

/-- The parse of a text without quotes: the line table, without its last row when
the last line holds nothing but carriage returns. -/
theorem parseCSV_unquoted (text : Str) (hq : QUOTE ∉ text) :
    parseCSV text =
      if removeCR (lastLine text) = [] then (lineTable text).dropLast else lineTable text := by
  obtain ⟨hp, _⟩ := pack_scanL text Scan.init hq rfl
  obtain ⟨hr, hl⟩ := scanL_unquoted text hq
  simp only [Scan.init, List.nil_append, merge_nil_nil] at hp
  rw [parseCSV_eq_scanL]
  unfold finish
  by_cases hpend : removeCR (lastLine text) = []
  · have hf : lineFields (lastLine text) = [[]] :=
      (splitOn_eq_singleton_nil COMMA _).mpr hpend
    rw [hf] at hl
    have hc : (scanL text Scan.init).current = [] := by
      rcases hcur : (scanL text Scan.init).current with _ | ⟨x, xs⟩
      · rfl
      · rw [hcur] at hl
        have := congrArg List.length hl
        simp at this
    have hv : (scanL text Scan.init).value = [] := by
      rw [hc] at hl; simpa using hl
    simp [hpend, hc, hv, hr]
  · have hne : ¬ ((scanL text Scan.init).current = [] ∧ (scanL text Scan.init).value = []) := by
      rintro ⟨hc, hv⟩
      rw [hc, hv] at hl
      exact hpend ((splitOn_eq_singleton_nil COMMA _).mp hl.symm)
    have hcond : (scanL text Scan.init).value ≠ [] ∨ (scanL text Scan.init).current.length ≠ 0 := by
      by_contra hcon
      push_neg at hcon
      exact hne ⟨List.length_eq_zero.mp hcon.2, hcon.1⟩
    rw [if_pos hcond, if_neg hpend, ← hp]
    rfl

theorem length_splitOn (a : Nat) (l : Str) : (l.splitOn a).length = l.count a + 1 := by
  induction l with
  | nil => rfl
  | cons c cs ih =>
    simp only [List.splitOn] at ih ⊢
    rw [List.splitOnP_cons]
    by_cases hca : c = a
    · subst hca; simp [ih]
    · have hb : ¬ ((c == a) = true) := by simpa using hca
      rw [if_neg hb, List.length_modifyHead, ih, List.count_cons_of_ne (Ne.symm hca)]

theorem length_lines (text : Str) : (lines text).length = text.count LF + 1 :=
  length_splitOn LF text

theorem length_lineFields (line : Str) : (lineFields line).length = 1 + line.count COMMA := by
  unfold lineFields removeCR
  rw [length_splitOn, List.count_filter (by decide), Nat.add_comm]

theorem lastLine_cons_LF (cs : Str) : lastLine (LF :: cs) = lastLine cs := by
  unfold lastLine
  rw [lines_cons_LF]
  rcases hl : lines cs with _ | ⟨l, t⟩
  · exact absurd hl (lines_ne_nil cs)
  · simp [List.getLastD_cons]

theorem not_mem_CR_lastLine (text : Str) (h : crOnlyBeforeLF text = true) :
    CR ∉ lastLine text := by
  induction text with
  | nil => simp [lastLine, lines_nil]
  | cons c cs ih =>
    simp only [crOnlyBeforeLF, Bool.and_eq_true, Bool.or_eq_true, bne_iff_ne, ne_eq,
      beq_iff_eq] at h
    obtain ⟨hc, hcs⟩ := h
    have ih2 := ih hcs
    by_cases h4 : c = LF
    · subst h4; rw [lastLine_cons_LF]; exact ih2
    · unfold lastLine at ih2 ⊢
      rw [lines_cons_ne c cs h4]
      rcases hl : lines cs with _ | ⟨l, t⟩
      · exact absurd hl (lines_ne_nil cs)
      · rw [hl] at ih2
        rcases t with _ | ⟨l2, t2⟩
        · simp only [List.modifyHead_cons, List.getLastD_cons, List.getLastD_nil,
            List.mem_cons, not_or] at ih2 ⊢
          refine ⟨?_, ih2⟩
          intro hcr
          rcases hc with hc | hc
          · exact hc hcr.symm
          · rcases cs with _ | ⟨d, cs2⟩
            · simp at hc
            · simp only [List.head?_cons, Option.some.injEq] at hc
              subst hc
              rw [lines_cons_LF] at hl
              have : lines cs2 = [] := by
                have := congrArg List.tail hl
                simpa using this
              exact lines_ne_nil cs2 this
        · simpa [List.getLastD_cons] using ih2

/-- C2: on a text without quotes in which a carriage return occurs only right before
a line feed, the parse has one row per line feed, plus one more exactly when the
text after the last line feed is not empty, and the k-th row has one field more
than the k-th line has commas. -/
theorem parseCSV_row_and_field_counts (text : Str) (hq : QUOTE ∉ text)
    (hcr : crOnlyBeforeLF text = true) :
    (parseCSV text).length = text.count LF + (if lastLine text = [] then 0 else 1) ∧
    ∀ (k : Nat) (row : List Str), (parseCSV text)[k]? = some row →
      ∃ line, (lines text)[k]? = some line ∧ row.length = 1 + line.count COMMA := by
  have hrm : removeCR (lastLine text) = lastLine text := by
    unfold removeCR
    rw [List.filter_eq_self]
    intro x hx
    have : x ≠ CR := fun h => not_mem_CR_lastLine text hcr (h ▸ hx)
    simpa using this
  have hlen : (lineTable text).length = text.count LF + 1 := by
    simp [lineTable, length_lines]
  have hrow : ∀ (k : Nat) (row : List Str), (lineTable text)[k]? = some row →
      ∃ line, (lines text)[k]? = some line ∧ row.length = 1 + line.count COMMA := by
    intro k row hk
    simp only [lineTable, List.getElem?_map, Option.map_eq_some'] at hk
    obtain ⟨line, hline, hrow⟩ := hk
    exact ⟨line, hline, by rw [← hrow, length_lineFields]⟩
  rw [parseCSV_unquoted text hq, hrm]
  by_cases hl : lastLine text = []
  · simp only [if_pos hl]
    refine ⟨by simp [hlen], ?_⟩
    intro k row hk
    rw [List.getElem?_dropLast] at hk
    split at hk
    · exact hrow k row hk
    · cases hk
  · simp only [if_neg hl]
    exact ⟨hlen, hrow⟩

theorem parseCSV_row_and_field_counts_witness :
    QUOTE ∉ ofString "a,b\r\n,\nc" ∧ crOnlyBeforeLF (ofString "a,b\r\n,\nc") = true ∧
    ((parseCSV (ofString "a,b\r\n,\nc")).length
        = (ofString "a,b\r\n,\nc").count LF
          + (if lastLine (ofString "a,b\r\n,\nc") = [] then 0 else 1) ∧
      ∀ (k : Nat) (row : List Str), (parseCSV (ofString "a,b\r\n,\nc"))[k]? = some row →
        ∃ line, (lines (ofString "a,b\r\n,\nc"))[k]? = some line ∧
          row.length = 1 + line.count COMMA) :=
  ⟨by decide, by decide,
    parseCSV_row_and_field_counts (ofString "a,b\r\n,\nc") (by decide) (by decide)⟩

theorem scanL_removeCR (text : Str) (s : Scan) (hq : QUOTE ∉ text) (hs : s.inQuotes = false) :
    scanL (removeCR text) s = scanL text s := by
  induction text generalizing s with
  | nil => rfl
  | cons c cs ih =>
    have h1 : c ≠ QUOTE := fun h => hq (by simp [h])
    have hq2 : QUOTE ∉ cs := fun h => hq (List.mem_cons_of_mem _ h)
    by_cases h3 : c = CR
    · subst h3
      have e : removeCR (CR :: cs) = removeCR cs := by simp [removeCR]
      rw [e, scanL_CR _ _ hs]
      exact ih s hq2 hs
    · have e : removeCR (c :: cs) = c :: removeCR cs := by simp [removeCR, h3]
      rw [e]
      by_cases h2 : c = COMMA
      · subst h2
        rw [scanL_comma _ _ hs, scanL_comma _ _ hs]
        exact ih { s with current := s.current ++ [s.value], value := [] } hq2 hs
      · by_cases h4 : c = LF
        · subst h4
          rw [scanL_LF _ _ hs, scanL_LF _ _ hs]
          exact ih { s with rows := s.rows ++ [s.current ++ [s.value]], current := [],
                            value := [] } hq2 hs
        · rw [scanL_other c _ _ hs h1 h2 h3 h4, scanL_other c _ _ hs h1 h2 h3 h4]
          exact ih { s with value := s.value ++ [c] } hq2 hs

theorem not_mem_QUOTE_removeCR (text : Str) (hq : QUOTE ∉ text) : QUOTE ∉ removeCR text :=
  fun h => hq (List.mem_of_mem_filter h)

/-- C4: on a text without quotes, removing every carriage return does not change
the parse; CRLF and LF line ends give the same table. -/
theorem parseCSV_removeCR (text : Str) (hq : QUOTE ∉ text) :
    parseCSV text = parseCSV (removeCR text) := by
  rw [parseCSV_eq_scanL, parseCSV_eq_scanL, scanL_removeCR text _ hq rfl]

theorem parseCSV_removeCR_witness :
    QUOTE ∉ ofString "a,b\r\nc\rd\r\n" ∧
    parseCSV (ofString "a,b\r\nc\rd\r\n") = parseCSV (removeCR (ofString "a,b\r\nc\rd\r\n")) :=
  ⟨by decide, parseCSV_removeCR (ofString "a,b\r\nc\rd\r\n") (by decide)⟩

theorem scanL_append_unquoted (t u : Str) (s : Scan) (hq : QUOTE ∉ t)
    (hs : s.inQuotes = false) :
    scanL (t ++ u) s = scanL u (scanL t s) := by
  induction t generalizing s with
  | nil => simp [scanL_nil]
  | cons c cs ih =>
    have h1 : c ≠ QUOTE := fun h => hq (by simp [h])
    have hq2 : QUOTE ∉ cs := fun h => hq (List.mem_cons_of_mem _ h)
    rw [List.cons_append]
    by_cases h2 : c = COMMA
    · subst h2
      rw [scanL_comma _ _ hs, scanL_comma _ _ hs]
      exact ih { s with current := s.current ++ [s.value], value := [] } hq2 hs
    · by_cases h3 : c = CR
      · subst h3
        rw [scanL_CR _ _ hs, scanL_CR _ _ hs]
        exact ih s hq2 hs
      · by_cases h4 : c = LF
        · subst h4
          rw [scanL_LF _ _ hs, scanL_LF _ _ hs]
          exact ih { s with rows := s.rows ++ [s.current ++ [s.value]], current := [],
                            value := [] } hq2 hs
        · rw [scanL_other c _ _ hs h1 h2 h3 h4, scanL_other c _ _ hs h1 h2 h3 h4]
          exact ih { s with value := s.value ++ [c] } hq2 hs

/-- C5: on a text without quotes whose last line holds a character other than a
carriage return, a line feed added at the end does not change the parse: no
empty row is added and the unterminated last line is kept. -/
theorem parseCSV_append_LF (t : Str) (hq : QUOTE ∉ t)
    (hlast : ∃ c ∈ lastLine t, c ≠ CR) :
    parseCSV (t ++ [LF]) = parseCSV t := by
  obtain ⟨_, hinq⟩ := pack_scanL t Scan.init hq rfl
  obtain ⟨_, hl⟩ := scanL_unquoted t hq
  have hpend : removeCR (lastLine t) ≠ [] := by
    obtain ⟨c, hc, hne⟩ := hlast
    intro h
    have : c ∈ removeCR (lastLine t) := by
      unfold removeCR
      exact List.mem_filter.mpr ⟨hc, by simpa using hne⟩
    rw [h] at this
    cases this
  have hcond : (scanL t Scan.init).value ≠ [] ∨ (scanL t Scan.init).current.length ≠ 0 := by
    by_contra hcon
    push_neg at hcon
    rw [List.length_eq_zero.mp hcon.2, hcon.1] at hl
    exact hpend ((splitOn_eq_singleton_nil COMMA _).mp hl.symm)
  rw [parseCSV_eq_scanL, parseCSV_eq_scanL, scanL_append_unquoted t [LF] _ hq rfl,
    scanL_LF _ _ hinq, scanL_nil]
  unfold finish
  rw [if_pos hcond]
  simp

theorem parseCSV_append_LF_witness :
    QUOTE ∉ ofString "a,b" ∧ (∃ c ∈ lastLine (ofString "a,b"), c ≠ CR) ∧
    parseCSV (ofString "a,b" ++ [LF]) = parseCSV (ofString "a,b") ∧
    parseCSV (ofString "a,b\n") = [[ofString "a", ofString "b"]] ∧
    parseCSV (ofString "a,b") = [[ofString "a", ofString "b"]] :=
  ⟨by decide, ⟨97, by decide, by decide⟩,
    parseCSV_append_LF (ofString "a,b") (by decide) ⟨97, by decide, by decide⟩,
    by decide, by decide⟩

/-! ## The grid of `renderTable` -/

theorem forEachFrom_append_elem {α β : Type} (h : α → β) (i : Nat) (xs : List α)
    (acc : List β) :
    forEachFrom (fun (a : List β) (x : α) (_ : Nat) => a ++ [h x]) i xs acc
      = acc ++ xs.map h := by
  induction xs generalizing i acc with
  | nil => simp [forEachFrom]
  | cons x xs ih => simp [forEachFrom, ih]

theorem forEachFrom_append_index {α β : Type} (g : Nat → β) (i : Nat) (xs : List α)
    (acc : List β) :
    forEachFrom (fun (a : List β) (_ : α) (index : Nat) => a ++ [g index]) i xs acc
      = acc ++ (List.range' i xs.length).map g := by
  induction xs generalizing i acc with
  | nil => simp [forEachFrom]
  | cons x xs ih => simp [forEachFrom, ih, List.range'_succ]

/-- The grid that `renderTable` builds when the text is not blank and the parse has
a header row and at least one data row. -/
theorem renderTable_grid (csvText : Str) (head0 body0 : Section) (header : List Str)
    (dataRows : List (List Str)) (hblank : trim csvText ≠ [])
    (hparse : parseCSV csvText = header :: dataRows) (hdata : dataRows ≠ []) :
    renderTable csvText head0 body0 =
      ⟨[header.map (fun cell => ⟨Tag.th, [], cell⟩)],
       dataRows.map (fun values =>
         (List.range header.length).map
           (fun index => (⟨Tag.td, [], (values[index]?).getD []⟩ : Cell)))⟩ := by
  have hlen : ¬ dataRows.length = 0 := fun h => hdata (List.length_eq_zero.mp h)
  unfold renderTable
  simp only [if_neg hblank, hparse, if_neg hlen, clearSection, forEach, List.nil_append]
  simp only [forEachFrom_append_elem, forEachFrom_append_index, List.nil_append,
    List.range_eq_range']

theorem map_range_getD (values : List Str) (n : Nat) :
    (List.range n).map (fun index => (values[index]?).getD [])
      = values.take n ++ List.replicate (n - values.length) [] := by
  apply List.ext_getElem
  · simp; omega
  · intro k h1 h2
    simp only [List.length_map, List.length_range] at h1
    simp only [List.getElem_map, List.getElem_range]
    by_cases hk : k < values.length
    · rw [List.getElem_append_left (by simp; omega)]
      simp [List.getElem?_eq_getElem hk]
    · rw [List.getElem_append_right (by simp; omega)]
      simp [List.getElem?_eq_none (Nat.le_of_not_lt hk)]

/-- C8: in the grid built from a non-blank text, the body cell at column `j` (below
the header's length) of the row built from the `i`-th data row holds that data
row's field `j`, unchanged, when the data row has more than `j` fields, and the
empty string otherwise. -/
theorem renderTable_body_cell (csvText : Str) (head0 body0 : Section) (header : List Str)
    (dataRows : List (List Str)) (i j : Nat) (values : List Str)
    (hblank : trim csvText ≠ []) (hparse : parseCSV csvText = header :: dataRows)
    (hvalues : dataRows[i]? = some values) (hj : j < header.length) :
    ∃ tr cell, (renderTable csvText head0 body0).body[i]? = some tr ∧ tr[j]? = some cell ∧
      cell.textContent = (if h : j < values.length then values[j] else []) := by
  have hdata : dataRows ≠ [] := by
    intro h; rw [h] at hvalues; cases hvalues
  rw [renderTable_grid csvText head0 body0 header dataRows hblank hparse hdata]
  refine ⟨(List.range header.length).map
    (fun index => (⟨Tag.td, [], (values[index]?).getD []⟩ : Cell)),
    ⟨Tag.td, [], (values[j]?).getD []⟩, ?_, ?_, ?_⟩
  · simp only [List.getElem?_map, hvalues, Option.map_some']
  · simp [List.getElem?_range hj]
  · by_cases h : j < values.length
    · simp [h, List.getElem?_eq_getElem h]
    · simp [h, List.getElem?_eq_none (Nat.le_of_not_lt h)]

theorem renderTable_body_cell_witness :
    trim (ofString "h1,h2\nv1\n") ≠ [] ∧
    parseCSV (ofString "h1,h2\nv1\n") = [ofString "h1", ofString "h2"] :: [[ofString "v1"]] ∧
    [[ofString "v1"]][0]? = some [ofString "v1"] ∧
    1 < [ofString "h1", ofString "h2"].length ∧
    (∃ tr cell, (renderTable (ofString "h1,h2\nv1\n") [] []).body[0]? = some tr ∧
      tr[1]? = some cell ∧
      cell.textContent = (if h : 1 < [ofString "v1"].length then [ofString "v1"][1] else [])) ∧
    renderTable (ofString "h1,h2\nv1\n") [] [] =
      ⟨[[⟨Tag.th, [], ofString "h1"⟩, ⟨Tag.th, [], ofString "h2"⟩]],
       [[⟨Tag.td, [], ofString "v1"⟩, ⟨Tag.td, [], ofString ""⟩]]⟩ :=
  ⟨by decide, by decide, by decide, by decide,
    renderTable_body_cell (ofString "h1,h2\nv1\n") [] [] [ofString "h1", ofString "h2"]
      [[ofString "v1"]] 0 1 [ofString "v1"] (by decide) (by decide) (by decide) (by decide),
    by decide⟩

/-- C9: in the grid built from a non-blank text with at least one data row, the body
has one row per data row, every body row has as many cells as the header, and
the texts of the body rows are, in order, the data rows cut to the header's
length (fields beyond it dropped) and filled up with empty strings. -/
theorem renderTable_body_shape (csvText : Str) (head0 body0 : Section) (header : List Str)
    (dataRows : List (List Str))
    (hblank : trim csvText ≠ []) (hparse : parseCSV csvText = header :: dataRows)
    (hdata : dataRows ≠ []) :
    (renderTable csvText head0 body0).body.length = dataRows.length ∧
    (∀ tr ∈ (renderTable csvText head0 body0).body, tr.length = header.length) ∧
    (renderTable csvText head0 body0).body.map (fun tr => tr.map Cell.textContent) =
      dataRows.map (fun values =>
        values.take header.length ++ List.replicate (header.length - values.length) []) := by
  rw [renderTable_grid csvText head0 body0 header dataRows hblank hparse hdata]
  refine ⟨by simp, ?_, ?_⟩
  · intro tr htr
    simp only [List.mem_map] at htr
    obtain ⟨values, _, rfl⟩ := htr
    simp
  · simp only [List.map_map]
    apply List.map_congr_left
    intro values _
    simp only [Function.comp, List.map_map]
    exact map_range_getD values header.length

theorem renderTable_body_shape_witness :
    trim (ofString "h\na,b\n\nc") ≠ [] ∧
    parseCSV (ofString "h\na,b\n\nc") =
      [ofString "h"] :: [[ofString "a", ofString "b"], [[]], [ofString "c"]] ∧
    ([[ofString "a", ofString "b"], [[]], [ofString "c"]] : List (List Str)) ≠ [] ∧
    ((renderTable (ofString "h\na,b\n\nc") [] []).body.length
        = [[ofString "a", ofString "b"], [[]], [ofString "c"]].length ∧
      (∀ tr ∈ (renderTable (ofString "h\na,b\n\nc") [] []).body,
        tr.length = [ofString "h"].length) ∧
      (renderTable (ofString "h\na,b\n\nc") [] []).body.map (fun tr => tr.map Cell.textContent) =
        [[ofString "a", ofString "b"], [[]], [ofString "c"]].map (fun values =>
          values.take [ofString "h"].length
            ++ List.replicate ([ofString "h"].length - values.length) [])) :=
  ⟨by decide, by decide, by decide,
    renderTable_body_shape (ofString "h\na,b\n\nc") [] [] [ofString "h"]
      [[ofString "a", ofString "b"], [[]], [ofString "c"]] (by decide) (by decide) (by decide)⟩

/-- C10: for a text that is empty after trimming, `renderTable` builds no grid: the
head section is left empty and the body holds the single placeholder row
"No data available."; so it is for the empty text and for three spaces. -/
theorem renderTable_blank (csvText : Str) (head0 body0 : Section)
    (hblank : trim csvText = []) :
    renderTable csvText head0 body0 =
      ⟨[], [[⟨Tag.td, ofString "placeholder", ofString "No data available."⟩]]⟩ := by
  unfold renderTable
  rw [if_pos hblank]
  rfl

theorem renderTable_blank_witness :
    trim (ofString "   ") = [] ∧ trim (ofString "") = [] ∧
    renderTable (ofString "   ") [] [] =
      ⟨[], [[⟨Tag.td, ofString "placeholder", ofString "No data available."⟩]]⟩ ∧
    renderTable (ofString "") [[⟨Tag.th, [], ofString "old"⟩]] [[⟨Tag.td, [], ofString "old"⟩]] =
      ⟨[], [[⟨Tag.td, ofString "placeholder", ofString "No data available."⟩]]⟩ :=
  ⟨by decide, by decide,
    renderTable_blank (ofString "   ") [] [] (by decide),
    renderTable_blank (ofString "") _ _ (by decide)⟩

/-! ## Header-only tables, non-empty rows, termination -/

/-- What `renderTable` builds when the text is not blank and the parse has a header
row and no data row. -/
theorem renderTable_header_grid (csvText : Str) (head0 body0 : Section) (header : List Str)
    (hblank : trim csvText ≠ []) (hparse : parseCSV csvText = [header]) :
    renderTable csvText head0 body0 =
      ⟨[header.map (fun cell => ⟨Tag.th, [], cell⟩)], [noRowsParsed]⟩ := by
  unfold renderTable
  simp only [if_neg hblank, hparse, clearSection, forEach, List.nil_append, List.length_nil,
    if_true, forEachFrom_append_elem]

/-- C11: for a text that is not blank and parses to exactly one row, `renderTable`
renders that row as the header, one `th` per field in order, and the body is the
single placeholder row "No rows parsed.", which is not the placeholder row
"No data available." of the case without grid. -/
theorem renderTable_header_only (csvText : Str) (head0 body0 : Section) (header : List Str)
    (hblank : trim csvText ≠ []) (hparse : parseCSV csvText = [header]) :
    renderTable csvText head0 body0 =
      ⟨[header.map (fun cell => ⟨Tag.th, [], cell⟩)],
       [[⟨Tag.td, ofString "placeholder", ofString "No rows parsed."⟩]]⟩ ∧
    ([[⟨Tag.td, ofString "placeholder", ofString "No rows parsed."⟩]] : Section) ≠
      [[⟨Tag.td, ofString "placeholder", ofString "No data available."⟩]] := by
  refine ⟨?_, by decide⟩
  rw [renderTable_header_grid csvText head0 body0 header hblank hparse]
  rfl

theorem renderTable_header_only_witness :
    trim (ofString "a,b") ≠ [] ∧ parseCSV (ofString "a,b") = [[ofString "a", ofString "b"]] ∧
    (renderTable (ofString "a,b") [] [] =
      ⟨[[ofString "a", ofString "b"].map (fun cell => ⟨Tag.th, [], cell⟩)],
       [[⟨Tag.td, ofString "placeholder", ofString "No rows parsed."⟩]]⟩ ∧
    ([[⟨Tag.td, ofString "placeholder", ofString "No rows parsed."⟩]] : Section) ≠
      [[⟨Tag.td, ofString "placeholder", ofString "No data available."⟩]]) :=
  ⟨by decide, by decide,
    renderTable_header_only (ofString "a,b") [] [] [ofString "a", ofString "b"]
      (by decide) (by decide)⟩

theorem loopBody_rows_ne (text : Str) (char : Nat) (s : Scan)
    (h : ∀ r ∈ s.rows, r ≠ []) : ∀ r ∈ (loopBody text char s).rows, r ≠ [] := by
  unfold loopBody
  split_ifs <;> simp only [] <;> try exact h
  intro r hr
  rcases List.mem_append.mp hr with h1 | h1
  · exact h r h1
  · simp only [List.mem_singleton] at h1
    subst h1
    simp

theorem loop_rows_ne (text : Str) (fuel : Nat) (s : Scan)
    (h : ∀ r ∈ s.rows, r ≠ []) : ∀ r ∈ (loop text fuel s).rows, r ≠ [] := by
  induction fuel generalizing s with
  | zero => simpa [loop] using h
  | succ n ih =>
    rcases hget : text[s.index]? with _ | char
    · simpa [loop, hget] using h
    · simp only [loop, hget]
      exact ih _ (loopBody_rows_ne text char s h)

theorem parseCSV_row_ne (text : Str) : ∀ row ∈ parseCSV text, row ≠ [] := by
  have h := loop_rows_ne text text.length Scan.init (by simp [Scan.init])
  unfold parseCSV finish
  split_ifs
  · intro row hrow
    rcases List.mem_append.mp hrow with h1 | h1
    · exact h row h1
    · simp only [List.mem_singleton] at h1
      subst h1
      simp
  · exact h

/-- C12: every row of `parseCSV text` has at least one field, and so every row that
`renderTable` puts into the head section has at least one cell. -/
theorem parseCSV_rows_have_a_field (text : Str) :
    (∀ row ∈ parseCSV text, 1 ≤ row.length) ∧
    (∀ (head0 body0 : Section), ∀ tr ∈ (renderTable text head0 body0).head, 1 ≤ tr.length) := by
  have hrow : ∀ row ∈ parseCSV text, 1 ≤ row.length := by
    intro row hr
    exact List.length_pos.mpr (parseCSV_row_ne text row hr)
  refine ⟨hrow, ?_⟩
  intro head0 body0 tr htr
  unfold renderTable at htr
  by_cases hblank : trim text = []
  · simp [if_pos hblank, clearSection] at htr
  · rcases hparse : parseCSV text with _ | ⟨header, dataRows⟩
    · simp [if_neg hblank, hparse, clearSection] at htr
    · have hh : 1 ≤ header.length := hrow header (by simp [hparse])
      simp only [if_neg hblank, hparse, clearSection, forEach, List.nil_append,
        forEachFrom_append_elem] at htr
      split_ifs at htr <;>
      · simp only [List.mem_singleton] at htr
        subst htr
        simpa using hh

theorem parseCSV_rows_have_a_field_witness :
    [ofString "a", ofString ""] ∈ parseCSV (ofString "a,") ∧
    1 ≤ [ofString "a", ofString ""].length ∧
    [(⟨Tag.th, [], ofString "a"⟩ : Cell), ⟨Tag.th, [], ofString ""⟩]
      ∈ (renderTable (ofString "a,") [] []).head ∧
    1 ≤ [(⟨Tag.th, [], ofString "a"⟩ : Cell), ⟨Tag.th, [], ofString ""⟩].length :=
  ⟨by decide,
   (parseCSV_rows_have_a_field (ofString "a,")).1 _ (by decide),
   by decide,
   (parseCSV_rows_have_a_field (ofString "a,")).2 [] [] _ (by decide)⟩

theorem loopBody_index_two (text : Str) (char : Nat) (s : Scan) :
    (loopBody text char s).index = s.index + 1 ∨
    ((loopBody text char s).index = s.index + 2 ∧ s.inQuotes = true ∧ char = QUOTE ∧
      text[s.index + 1]? = some QUOTE) := by
  unfold loopBody
  split_ifs with h1 h2 h3 <;> simp_all

theorem loop_more_fuel (text : Str) (fuel k : Nat) (s : Scan)
    (h : text.length - s.index ≤ fuel) :
    loop text (fuel + k) s = loop text fuel s := by
  induction fuel generalizing s with
  | zero =>
    have hnone : text[s.index]? = none := List.getElem?_eq_none (by omega)
    cases k with
    | zero => rfl
    | succ k => simp [loop, hnone]
  | succ n ih =>
    rw [Nat.add_right_comm]
    rcases hget : text[s.index]? with _ | char
    · simp [loop, hget]
    · simp only [loop, hget]
      apply ih
      rcases loopBody_index text char s with h1 | h1 <;> omega

/-- C13: `parseCSV` is total.  Every iteration moves the index forward by one, or by
two and then only for an escaped quote; a quote in quoted mode at the last
position, whose lookahead is past the end, just ends quoted mode; within
`text.length` iterations the loop stops because the index has reached the end
of the text, more iterations change nothing, and the table returned is the one
closed from that final state. -/
theorem parseCSV_total (text : Str) :
    (∀ (char : Nat) (s : Scan),
      (loopBody text char s).index = s.index + 1 ∨
      ((loopBody text char s).index = s.index + 2 ∧ s.inQuotes = true ∧ char = QUOTE ∧
        text[s.index + 1]? = some QUOTE)) ∧
    (∀ s : Scan, s.inQuotes = true → text.length ≤ s.index + 1 →
      loopBody text QUOTE s = { s with inQuotes := false, index := s.index + 1 }) ∧
    text.length ≤ (loop text text.length Scan.init).index ∧
    text[(loop text text.length Scan.init).index]? = none ∧
    (∀ fuel, text.length ≤ fuel →
      loop text fuel Scan.init = loop text text.length Scan.init) ∧
    (∀ fuel, text.length ≤ fuel → finish (loop text fuel Scan.init) = parseCSV text) := by
  have hge : text.length ≤ (loop text text.length Scan.init).index :=
    loop_index_ge text text.length Scan.init (by simp [Scan.init])
  have hfuel : ∀ fuel, text.length ≤ fuel →
      loop text fuel Scan.init = loop text text.length Scan.init := by
    intro fuel hf
    obtain ⟨k, rfl⟩ := Nat.exists_eq_add_of_le hf
    exact loop_more_fuel text text.length k Scan.init (by simp [Scan.init])
  refine ⟨loopBody_index_two text, ?_, hge, List.getElem?_eq_none hge, hfuel, ?_⟩
  · intro s hs hlen
    have hnone : text[s.index + 1]? = none := List.getElem?_eq_none hlen
    unfold loopBody
    simp [hs, hnone]
  · intro fuel hf
    rw [hfuel fuel hf]
    rfl

theorem parseCSV_total_witness :
    ((loopBody (ofString "\"a\"\"\"") QUOTE ⟨2, [], [], ofString "a", true⟩).index = 2 + 2 ∧
      (loopBody (ofString "\"a\"\"\"") QUOTE ⟨4, [], [], ofString "a\"", true⟩)
        = ⟨5, [], [], ofString "a\"", false⟩ ∧
      (loop (ofString "\"a\"\"\"") 5 Scan.init).index = 5 ∧
      loop (ofString "\"a\"\"\"") 9 Scan.init = loop (ofString "\"a\"\"\"") 5 Scan.init ∧
      parseCSV (ofString "\"a\"\"\"") = [[ofString "a\""]]) ∧
    loopBody (ofString "\"a\"\"\"") QUOTE ⟨4, [], [], ofString "a\"", true⟩ =
      { (⟨4, [], [], ofString "a\"", true⟩ : Scan) with inQuotes := false, index := 4 + 1 } ∧
    loop (ofString "\"a\"\"\"") 9 Scan.init
      = loop (ofString "\"a\"\"\"") (ofString "\"a\"\"\"").length Scan.init :=
  ⟨by decide,
   (parseCSV_total (ofString "\"a\"\"\"")).2.1 ⟨4, [], [], ofString "a\"", true⟩
     (by decide) (by decide),
   (parseCSV_total (ofString "\"a\"\"\"")).2.2.2.2.1 9 (by decide)⟩

/-! ## The submit handler -/

/-- The prior content of the two sections plays no part in `renderTable`. -/
theorem renderTable_prior (csvText : Str) (head1 body1 head2 body2 : Section) :
    renderTable csvText head1 body1 = renderTable csvText head2 body2 := rfl

theorem renderTable_empty (head0 body0 : Section) :
    renderTable [] head0 body0 = ⟨[], noDataAvailable⟩ := rfl

theorem submitHandler_thrown (outcome : Outcome) (e : Thrown) (ui ui2 : UI)
    (h : tryBlock outcome (beforeRequest ui) = (ui2, some e)) :
    submitHandler outcome ui = ⟨false, [], e.text, [], noDataAvailable⟩ := by
  unfold submitHandler
  simp only [h]
  rfl

/-- C14, as the code has it: for every prior state of the page, a request that fails
by a thrown value with text `m` (thrown by `fetch`, by `response.text()` or by
`response.json()`), or by a response that is not `ok` with a non-empty body `m`,
leaves error text `m`, an empty status, an empty head, the body of the single
placeholder row "No data available." (what `renderTable("")` shows) and the
submit control enabled; a response that is not `ok` with an empty body leaves the
same state with the error text "conversion failed". -/
theorem submitHandler_failure (ui : UI) :
    (∀ e : Thrown, submitHandler (Outcome.fetchThrows e) ui =
      ⟨false, [], e.text, [],
        [[⟨Tag.td, ofString "placeholder", ofString "No data available."⟩]]⟩) ∧
    (∀ e : Thrown, submitHandler (Outcome.notOk (Except.error e)) ui =
      ⟨false, [], e.text, [],
        [[⟨Tag.td, ofString "placeholder", ofString "No data available."⟩]]⟩) ∧
    (∀ e : Thrown, submitHandler (Outcome.jsonThrows e) ui =
      ⟨false, [], e.text, [],
        [[⟨Tag.td, ofString "placeholder", ofString "No data available."⟩]]⟩) ∧
    (∀ m : Str, m ≠ [] → submitHandler (Outcome.notOk (Except.ok m)) ui =
      ⟨false, [], m, [],
        [[⟨Tag.td, ofString "placeholder", ofString "No data available."⟩]]⟩) ∧
    submitHandler (Outcome.notOk (Except.ok [])) ui =
      ⟨false, [], ofString "conversion failed", [],
        [[⟨Tag.td, ofString "placeholder", ofString "No data available."⟩]]⟩ ∧
    renderTable (ofString "") ui.head ui.body =
      ⟨[], [[⟨Tag.td, ofString "placeholder", ofString "No data available."⟩]]⟩ := by
  refine ⟨?_, ?_, ?_, ?_, ?_, rfl⟩
  · intro e; exact submitHandler_thrown _ e ui _ rfl
  · intro e; exact submitHandler_thrown _ e ui _ rfl
  · intro e; exact submitHandler_thrown _ e ui _ rfl
  · intro m hm
    have h := submitHandler_thrown (Outcome.notOk (Except.ok m)) (Thrown.error m) ui
      (beforeRequest ui) (by simp [tryBlock, hm])
    exact h
  · exact submitHandler_thrown (Outcome.notOk (Except.ok [])) _ ui _ rfl

theorem submitHandler_failure_witness :
    ofString "bad markdown" ≠ [] ∧
    submitHandler (Outcome.notOk (Except.ok (ofString "bad markdown")))
        ⟨false, ofString "Done", [], [[⟨Tag.th, [], ofString "old"⟩]],
          [[⟨Tag.td, [], ofString "old"⟩]]⟩ =
      ⟨false, [], ofString "bad markdown", [],
        [[⟨Tag.td, ofString "placeholder", ofString "No data available."⟩]]⟩ ∧
    submitHandler (Outcome.fetchThrows (Thrown.error (ofString "conversion failed")))
        ⟨false, ofString "Done", [], [[⟨Tag.th, [], ofString "old"⟩]],
          [[⟨Tag.td, [], ofString "old"⟩]]⟩ =
      ⟨false, [], ofString "conversion failed", [],
        [[⟨Tag.td, ofString "placeholder", ofString "No data available."⟩]]⟩ :=
  ⟨by decide,
   (submitHandler_failure _).2.2.2.1 (ofString "bad markdown") (by decide),
   (submitHandler_failure _).1 (Thrown.error (ofString "conversion failed"))⟩

/-- C14, as stated, fails: a response that is not `ok` and has the empty body text
`m = ""` leaves the error text "conversion failed", which is not `m`. -/
theorem submitHandler_empty_body :
    (submitHandler (Outcome.notOk (Except.ok (ofString ""))) ⟨false, [], [], [], []⟩).errorText
      = ofString "conversion failed" ∧
    (submitHandler (Outcome.notOk (Except.ok (ofString ""))) ⟨false, [], [], [], []⟩).errorText
      ≠ ofString "" := by
  decide

/-- Where the handler ends with "Done": before the request it disables the submit
control and clears the error text; for a response that is `ok` whose value is
not `null` and whose `csv` is a string, the final state shows the table rendered
from it, and from the empty string when `csv` is absent or `null`, with status
"Done" and an empty error text; for every outcome the submit control is enabled
when the handler completes. -/
theorem submitHandler_well_formed (ui : UI) :
    ((beforeRequest ui).submitDisabled = true ∧ (beforeRequest ui).errorText = []) ∧
    (∀ (result : Json) (msg csv : Str), result ≠ Json.null →
      result.prop (ofString "csv") = some (Json.str csv) →
      submitHandler (Outcome.ok result msg) ui =
        ⟨false, ofString "Done", [], (renderTable csv ui.head ui.body).head,
          (renderTable csv ui.head ui.body).body⟩) ∧
    (∀ (result : Json) (msg : Str), result ≠ Json.null →
      (result.prop (ofString "csv") = none ∨ result.prop (ofString "csv") = some Json.null) →
      submitHandler (Outcome.ok result msg) ui =
        ⟨false, ofString "Done", [], (renderTable (ofString "") ui.head ui.body).head,
          (renderTable (ofString "") ui.head ui.body).body⟩) ∧
    (∀ outcome : Outcome, (submitHandler outcome ui).submitDisabled = false) := by
  refine ⟨⟨rfl, rfl⟩, ?_, ?_, ?_⟩
  · intro result msg csv hnull hcsv
    cases result <;> first
      | exact absurd rfl hnull
      | (simp only [submitHandler, tryBlock, hcsv, orEmpty, renderTableValue]; rfl)
  · intro result msg hnull hcsv
    rcases hcsv with hcsv | hcsv <;>
    cases result <;> first
      | exact absurd rfl hnull
      | (simp only [submitHandler, tryBlock, hcsv, orEmpty, renderTableValue]; rfl)
  · intro outcome
    unfold submitHandler finallyBlock
    rfl

/-- C15, at an `ok` response with the JSON body `{"csv": 5}`: `result.csv ?? ""` is the
number 5, `renderTable` throws at `csvText.trim()`, and the handler ends in the
state of a failure, with the engine's message as error text, an empty status and
the placeholder row, not with the table of the received `csv` and the status
"Done"; so it does for the JSON body `null`, where `result.csv` throws. -/
theorem submitHandler_number_csv (ui : UI) (msg : Str) :
    submitHandler (Outcome.ok (Json.obj [(ofString "csv", Json.num 5)]) msg) ui =
      ⟨false, [], msg, [],
        [[⟨Tag.td, ofString "placeholder", ofString "No data available."⟩]]⟩ ∧
    (submitHandler (Outcome.ok (Json.obj [(ofString "csv", Json.num 5)]) msg) ui).statusText
      ≠ ofString "Done" ∧
    submitHandler (Outcome.ok Json.null msg) ui =
      ⟨false, [], msg, [],
        [[⟨Tag.td, ofString "placeholder", ofString "No data available."⟩]]⟩ := by
  have h1 := submitHandler_thrown (Outcome.ok (Json.obj [(ofString "csv", Json.num 5)]) msg)
    (Thrown.error msg) ui _ rfl
  have h2 := submitHandler_thrown (Outcome.ok Json.null msg) (Thrown.error msg) ui _ rfl
  refine ⟨h1, ?_, h2⟩
  rw [h1]
  show ([] : Str) ≠ ofString "Done"
  decide

/-! ## Rendering twice, the default state, two quotes -/

/-- C16: the head and body that `renderTable` produces depend only on `csvText`, not
on the prior content of the two sections; so rendering the same text again,
on the sections just rendered, gives the same grid. -/
theorem renderTable_depends_only_on_text (csvText : Str) (head1 body1 head2 body2 : Section) :
    renderTable csvText head1 body1 = renderTable csvText head2 body2 ∧
    renderTable csvText (renderTable csvText head1 body1).head
        (renderTable csvText head1 body1).body
      = renderTable csvText head1 body1 :=
  ⟨renderTable_prior csvText head1 body1 head2 body2, renderTable_prior csvText _ _ _ _⟩

/-- C17, at the payload `{"csv": 5}`: `loadDefaultState` returns `name` and `markdown`
empty and `csv` the number 5, which is not a string, and the first `renderTable`
of `initializePreview` throws at `csvText.trim()`. -/
theorem loadDefaultState_number_csv :
    (loadDefaultState (Payload.json (Json.obj [(ofString "csv", Json.num 5)]))).name.isStr
      = true ∧
    (loadDefaultState (Payload.json (Json.obj [(ofString "csv", Json.num 5)]))).csv.isStr
      = false ∧
    initialRender (Payload.json (Json.obj [(ofString "csv", Json.num 5)])) [] [] = none := by
  refine ⟨by decide, by decide, rfl⟩

/-- C20: the text of exactly two quote characters is not blank, and `parseCSV`
returns no row for it, not one row with an empty field; so `renderTable` shows
the placeholder row "No data available." through its second gate. -/
theorem parseCSV_two_quotes :
    trim (ofString "\"\"") ≠ [] ∧ parseCSV (ofString "\"\"") = [] ∧
    parseCSV (ofString "\"\"") ≠ [[ofString ""]] ∧
    ∀ head0 body0 : Section, renderTable (ofString "\"\"") head0 body0 =
      ⟨[], [[⟨Tag.td, ofString "placeholder", ofString "No data available."⟩]]⟩ := by
  refine ⟨by decide, by decide, by decide, ?_⟩
  intro head0 body0
  rw [renderTable_prior _ head0 body0 [] []]
  decide

/-! ## Complete lines parse on their own -/

theorem noIndex_of_index_zero (s : Scan) (h : s.index = 0) : s.noIndex = s := by
  cases s
  simp only [Scan.noIndex] at *
  simp [h]

theorem scanL_eq_loop (text : Str) (s : Scan) (h : s.index = 0) :
    scanL text s = (loop text text.length s).noIndex := by
  have e := loop_eq_scanL text text.length s (by omega)
  rw [h, List.drop_zero, noIndex_of_index_zero s h] at e
  exact e.symm

theorem loopBody_addRows (text : Str) (char : Nat) (r : List (List Str)) (s : Scan) :
    loopBody text char (s.addRows r) = (loopBody text char s).addRows r := by
  unfold loopBody Scan.addRows
  split_ifs <;> simp

theorem loop_addRows (text : Str) (fuel : Nat) (r : List (List Str)) (s : Scan) :
    loop text fuel (s.addRows r) = (loop text fuel s).addRows r := by
  induction fuel generalizing s with
  | zero => rfl
  | succ n ih =>
    have hi : (s.addRows r).index = s.index := rfl
    rcases hget : text[s.index]? with _ | char
    · simp [loop, hi, hget]
    · simp only [loop, hi, hget]
      rw [loopBody_addRows, ih]

theorem scanL_addRows (text : Str) (r : List (List Str)) (s : Scan) (h : s.index = 0) :
    scanL text (s.addRows r) = (scanL text s).addRows r := by
  rw [scanL_eq_loop text (s.addRows r) h, scanL_eq_loop text s h, loop_addRows]
  rfl

theorem finish_addRows (r : List (List Str)) (s : Scan) :
    finish (s.addRows r) = r ++ finish s := by
  unfold finish Scan.addRows
  split_ifs <;> simp

/-- C18: for a text `t1` without quotes that is empty or ends with a line feed, and
any text `t2`, the parse of `t1` followed by `t2` is the parse of `t1` followed
by the parse of `t2`. -/
theorem parseCSV_append_complete_lines (t1 t2 : Str) (hq : QUOTE ∉ t1)
    (hend : t1 = [] ∨ ∃ p, t1 = p ++ [LF]) :
    parseCSV (t1 ++ t2) = parseCSV t1 ++ parseCSV t2 := by
  rcases hend with rfl | ⟨p, rfl⟩
  · have e : parseCSV [] = [] := by decide
    simp [e]
  · have hqp : QUOTE ∉ p := fun h => hq (List.mem_append_left _ h)
    obtain ⟨_, hinq⟩ := pack_scanL p Scan.init hqp rfl
    have hidx : (scanL p Scan.init).index = 0 := by
      rw [scanL_eq_loop p Scan.init rfl]; rfl
    have hs1 : scanL (p ++ [LF]) Scan.init =
        Scan.init.addRows ((scanL p Scan.init).rows ++
          [(scanL p Scan.init).current ++ [(scanL p Scan.init).value]]) := by
      have key : ∀ s : Scan, s.index = 0 → s.inQuotes = false →
          { s with rows := s.rows ++ [s.current ++ [s.value]], current := [], value := [] }
            = Scan.init.addRows (s.rows ++ [s.current ++ [s.value]]) := by
        intro s h1 h2
        cases s
        simp_all [Scan.addRows, Scan.init]
      rw [scanL_append_unquoted p [LF] _ hqp rfl, scanL_LF _ _ hinq, scanL_nil]
      exact key _ hidx hinq
    rw [parseCSV_eq_scanL, parseCSV_eq_scanL, parseCSV_eq_scanL,
      scanL_append_unquoted (p ++ [LF]) t2 _ hq rfl, hs1,
      scanL_addRows t2 _ Scan.init rfl, finish_addRows, finish_addRows]
    simp [finish, Scan.init]

theorem parseCSV_append_complete_lines_witness :
    QUOTE ∉ ofString "a,b\n" ∧
    (ofString "a,b\n" = [] ∨ ∃ p, ofString "a,b\n" = p ++ [LF]) ∧
    parseCSV (ofString "a,b\n" ++ ofString "\"x\ny\",z")
      = parseCSV (ofString "a,b\n") ++ parseCSV (ofString "\"x\ny\",z") :=
  ⟨by decide, Or.inr ⟨ofString "a,b", by decide⟩,
    parseCSV_append_complete_lines (ofString "a,b\n") (ofString "\"x\ny\",z") (by decide)
      (Or.inr ⟨ofString "a,b", by decide⟩)⟩

/-! ## Unquoted text is written back by joining -/

theorem removeCR_eq_self (l : Str) (h : CR ∉ l) : removeCR l = l := by
  unfold removeCR
  rw [List.filter_eq_self]
  intro x hx
  have : x ≠ CR := fun e => h (e ▸ hx)
  simpa using this

theorem intercalate_lineFields (l : Str) (h : CR ∉ l) :
    List.intercalate [COMMA] (lineFields l) = l := by
  unfold lineFields
  rw [removeCR_eq_self l h]
  exact List.intercalate_splitOn _ COMMA

theorem not_mem_CR_lines (t : Str) (h : CR ∉ t) : ∀ l ∈ lines t, CR ∉ l := by
  induction t with
  | nil => intro l hl; simp [lines_nil] at hl; subst hl; simp
  | cons c cs ih =>
    have hc : CR ≠ c := fun e => h (by simp [e])
    have hcs : CR ∉ cs := fun e => h (List.mem_cons_of_mem _ e)
    intro l hl
    by_cases h4 : c = LF
    · subst h4
      rw [lines_cons_LF] at hl
      rcases List.mem_cons.mp hl with h1 | h1
      · subst h1; simp
      · exact ih hcs l h1
    · rw [lines_cons_ne c cs h4] at hl
      rcases hls : lines cs with _ | ⟨x, xs⟩
      · exact absurd hls (lines_ne_nil cs)
      · rw [hls] at hl ih
        simp only [List.modifyHead_cons, List.mem_cons] at hl
        rcases hl with h1 | h1
        · subst h1
          have hx := ih hcs x (by simp)
          simp only [List.mem_cons, not_or]
          exact ⟨hc, hx⟩
        · exact ih hcs l (by simp [h1])

theorem intercalate_append_nil (sep : Str) (d : List Str) (hd : d ≠ []) :
    List.intercalate sep (d ++ [[]]) = List.intercalate sep d ++ sep := by
  induction d with
  | nil => exact absurd rfl hd
  | cons x xs ih =>
    rcases xs with _ | ⟨y, ys⟩
    · simp [List.intercalate, List.intersperse]
    · have ih2 := ih (by simp)
      simp only [List.intercalate, List.cons_append, List.intersperse_cons₂, List.flatten_cons,
        List.append_assoc] at ih2 ⊢
      rw [ih2]

theorem map_intercalate_lineTable (t : Str) (h : CR ∉ t) :
    (lineTable t).map (List.intercalate [COMMA]) = lines t := by
  unfold lineTable
  rw [List.map_map]
  conv_rhs => rw [← List.map_id (lines t)]
  apply List.map_congr_left
  intro l hl
  exact intercalate_lineFields l (not_mem_CR_lines t h l hl)

/-- C19: for a text without quotes and without carriage returns, the fields of each
row of the parse joined with commas, and the rows joined with line feeds, give
back the text, or the text without its final line feed. -/
theorem parseCSV_join (t : Str) (hq : QUOTE ∉ t) (hcr : CR ∉ t) :
    t = joinRows (parseCSV t) ∨ t = joinRows (parseCSV t) ++ [LF] := by
  have hjoin : List.intercalate [LF] (lines t) = t := List.intercalate_splitOn _ LF
  have hmap := map_intercalate_lineTable t hcr
  rw [parseCSV_unquoted t hq]
  unfold joinRows
  by_cases hlast : removeCR (lastLine t) = []
  · rw [if_pos hlast, List.map_dropLast, hmap]
    have hl : lastLine t = [] := by
      have hmem : lastLine t ∈ lines t := List.mem_of_getLast?_eq_some (lastLine_mem t)
      rw [removeCR_eq_self _ (not_mem_CR_lines t hcr _ hmem)] at hlast
      exact hlast
    have hsplit : lines t = (lines t).dropLast ++ [[]] := by
      have := List.dropLast_append_getLast? (lastLine t) (lastLine_mem t)
      rw [hl] at this
      exact this.symm
    by_cases hd : (lines t).dropLast = []
    · left
      rw [hd] at hsplit ⊢
      rw [← hjoin, hsplit]
      rfl
    · right
      rw [← intercalate_append_nil [LF] _ hd, ← hsplit, hjoin]
  · left
    rw [if_neg hlast, hmap, hjoin]

theorem parseCSV_join_witness :
    QUOTE ∉ ofString "a,b\n,\n\n" ∧ CR ∉ ofString "a,b\n,\n\n" ∧
    (ofString "a,b\n,\n\n" = joinRows (parseCSV (ofString "a,b\n,\n\n")) ∨
      ofString "a,b\n,\n\n" = joinRows (parseCSV (ofString "a,b\n,\n\n")) ++ [LF]) ∧
    joinRows (parseCSV (ofString "a,b\n,\n\n")) = ofString "a,b\n,\n" :=
  ⟨by decide, by decide, parseCSV_join (ofString "a,b\n,\n\n") (by decide) (by decide),
    by decide⟩

/-! ## Where `loadDefaultState` returns strings -/

theorem orEmpty_isStr (x : Option Json)
    (h : ∀ v, x = some v → v = Json.null ∨ v.isStr = true) : (orEmpty x).isStr = true := by
  rcases x with _ | v
  · rfl
  · rcases h v rfl with h1 | h1
    · subst h1; rfl
    · cases v <;> first | rfl | exact h1

theorem renderTableValue_isSome (v : Json) (h : v.isStr = true) (head0 body0 : Section) :
    (renderTableValue v head0 body0).isSome = true := by
  cases v <;> first | rfl | cases h

/-- Where `loadDefaultState` does return strings: the element is absent, its text
is not JSON, or the parsed value has each of `name`, `markdown` and `csv` absent,
`null` or a string; the first `renderTable` of `initializePreview` then returns. -/
theorem loadDefaultState_strings (payload : Payload) (head0 body0 : Section)
    (h : ∀ defaults, payload = Payload.json defaults →
      ∀ key v, defaults.prop key = some v → v = Json.null ∨ v.isStr = true) :
    (loadDefaultState payload).name.isStr = true ∧
    (loadDefaultState payload).markdown.isStr = true ∧
    (loadDefaultState payload).csv.isStr = true ∧
    (initialRender payload head0 body0).isSome = true := by
  have key : (loadDefaultState payload).name.isStr = true ∧
      (loadDefaultState payload).markdown.isStr = true ∧
      (loadDefaultState payload).csv.isStr = true := by
    rcases payload with _ | _ | defaults
    · exact ⟨rfl, rfl, rfl⟩
    · exact ⟨rfl, rfl, rfl⟩
    · have h2 := h defaults rfl
      cases defaults <;>
        first
        | exact ⟨rfl, rfl, rfl⟩
        | exact ⟨orEmpty_isStr _ (h2 _), orEmpty_isStr _ (h2 _), orEmpty_isStr _ (h2 _)⟩
  exact ⟨key.1, key.2.1, key.2.2, renderTableValue_isSome _ key.2.2 head0 body0⟩

end CaseMd
